import Mathlib

/-!
# Verification of the tetris engine

A shallow embedding of the tetris grid engine (`src/main.rs`): the seven
tetromino shapes, the grid with its `first_blank` index, the `place`
operation (resolver scan, cell marking, row clearing) and `height`.
Rust `usize` values are modelled as `Nat`; fallible operations return
`Except String`; the mutable grid is threaded explicitly, with `place`
returning the updated grid together with the `Result<(), &str>` value.
Out-of-range indexing (which would panic in Rust) is modelled with
`List.getD` / `List.set` defaults; all claims are settled in regimes
where indices are proved in range.
-/

namespace Tetris

/-- `GRID_WIDTH` from the source. -/
def GRID_WIDTH : Nat := 10

/-- `GRID_HEIGHT` from the source. -/
def GRID_HEIGHT : Nat := 100

/-- The seven tetromino shapes `Q, Z, S, T, I, L, J`. The source uses one
unit struct per shape implementing the `Tetromino` trait; the spec's design
notes describe them as a closed variant set, which is how we embed them. -/
inductive Shape where
  | Q | Z | S | T | I | L | J
deriving DecidableEq, Repr

/-- `Tetromino::width` for each shape, from the source. -/
def Shape.width : Shape → Nat
  | .Q => 2
  | .Z => 3
  | .S => 3
  | .T => 3
  | .I => 4
  | .L => 2
  | .J => 2

/-- `Tetromino::height` for each shape, from the source. -/
def Shape.height : Shape → Nat
  | .Q => 2
  | .Z => 2
  | .S => 2
  | .T => 2
  | .I => 1
  | .L => 3
  | .J => 3

/-- `Placement`: 4 squares, each an `(x, y)` coordinate pair, in the order
the source constructs them (`Placement([(usize, usize); 4])`). -/
structure Placement where
  c1 : Nat × Nat
  c2 : Nat × Nat
  c3 : Nat × Nat
  c4 : Nat × Nat
deriving DecidableEq, Repr

/-- The 4 squares of a placement as a list, in source order. -/
def Placement.cells (p : Placement) : List (Nat × Nat) :=
  [p.c1, p.c2, p.c3, p.c4]

/-- The `Ok` payload of each shape's `placement_at`: the 4 absolute cells
at anchor `(x, y)`, exactly as each `impl Tetromino for _` builds them. -/
def Shape.layout : Shape → Nat → Nat → Placement
  | .Q, x, y => ⟨(x, y), (x + 1, y), (x, y + 1), (x + 1, y + 1)⟩
  | .Z, x, y => ⟨(x + 1, y), (x + 2, y), (x, y + 1), (x + 1, y + 1)⟩
  | .S, x, y => ⟨(x, y), (x + 1, y), (x + 1, y + 1), (x + 2, y + 1)⟩
  | .T, x, y => ⟨(x + 1, y), (x, y + 1), (x + 1, y + 1), (x + 2, y + 1)⟩
  | .I, x, y => ⟨(x, y), (x + 1, y), (x + 2, y), (x + 3, y)⟩
  | .L, x, y => ⟨(x, y), (x + 1, y), (x, y + 1), (x, y + 2)⟩
  | .J, x, y => ⟨(x, y), (x + 1, y), (x + 1, y + 1), (x + 1, y + 2)⟩

/-- `Tetromino::placement_at`: every shape guards
`x > GRID_WIDTH - width || y > GRID_HEIGHT - height` and otherwise
returns its fixed 4-cell layout offset by the anchor. -/
def Shape.placement_at (s : Shape) (x y : Nat) : Except String Placement :=
  if x > GRID_WIDTH - s.width ∨ y > GRID_HEIGHT - s.height then
    Except.error "out of bound"
  else
    Except.ok (s.layout x y)

/-- The grid: `squares` is a 100-row list of 10-cell boolean rows
(`squares[y][x]`), `first_blank` the tracked first fully empty row. -/
structure Grid where
  squares : List (List Bool)
  first_blank : Nat
deriving DecidableEq, Repr

/-- `Grid::new()`: 100 empty rows of width 10, `first_blank = 0`. -/
def Grid.new : Grid :=
  ⟨List.replicate 100 (List.replicate 10 false), 0⟩

/-- `Grid::is_row_filled` on a bare `squares` matrix:
`squares[y].iter().all(|x| *x)`. -/
def rowFilled (squares : List (List Bool)) (y : Nat) : Bool :=
  (squares.getD y []).all id

/-- `Grid::is_row_filled`. -/
def Grid.is_row_filled (g : Grid) (y : Nat) : Bool :=
  rowFilled g.squares y

/-- `Grid::can_place`: all 4 squares of the placement are empty. -/
def Grid.can_place (g : Grid) (p : Placement) : Bool :=
  p.cells.all fun c => !((g.squares.getD c.2 []).getD c.1 false)

/-- The resolver loop of `Grid::place`:
`for row in (0..first_blank).rev() { let p = T::placement_at((column, row))?;
if self.can_place(&p) { placement = p; } else { break; } }`.
The first argument counts the rows still to scan; a call with fuel `n + 1`
examines row `n`. -/
def Grid.scanRows (g : Grid) (s : Shape) (column : Nat) :
    Nat → Placement → Except String Placement
  | 0, best => Except.ok best
  | n + 1, best =>
    match s.placement_at column n with
    | Except.error e => Except.error e
    | Except.ok p =>
      if g.can_place p then g.scanRows s column n p else Except.ok best

/-- The fallible prefix of `Grid::place`: the baseline
`T::placement_at((column, self.first_blank))?` followed by the scan loop,
producing the chosen placement. -/
def Grid.resolve (g : Grid) (s : Shape) (column : Nat) :
    Except String Placement :=
  match s.placement_at column g.first_blank with
  | Except.error e => Except.error e
  | Except.ok base => g.scanRows s column g.first_blank base

/-- `self.squares[y][x] = true`. -/
def setSquare (squares : List (List Bool)) (x y : Nat) : List (List Bool) :=
  squares.set y ((squares.getD y []).set x true)

/-- `placement.0.iter().for_each(|(x, y)| self.squares[*y][*x] = true)`. -/
def markCells (squares : List (List Bool)) (p : Placement) :
    List (List Bool) :=
  p.cells.foldl (fun sq c => setSquare sq c.1 c.2) squares

/-- Removal of one row as the source's clear loop performs it:
`self.squares.remove(y); self.squares.push(vec![false; 10])`. -/
def removeRow (squares : List (List Bool)) (y : Nat) : List (List Bool) :=
  squares.eraseIdx y ++ [List.replicate 10 false]

/-- One iteration of the row-clear loop of `Grid::place` at loop index `i`:
`let y = top - i; if self.is_row_filled(y) { self.squares.remove(y);
self.squares.push(vec![false; 10]); self.first_blank -= 1; }`, acting on
the `(squares, first_blank)` pair. -/
def clearStep (top : Nat) (st : List (List Bool) × Nat) (i : Nat) :
    List (List Bool) × Nat :=
  let y := top - i
  if rowFilled st.1 y then
    (removeRow st.1 y, st.2 - 1)
  else
    st

/-- The row-clear loop of `Grid::place`: `for i in 0..T::height()`. -/
def clearRows (squares : List (List Bool)) (fb top h : Nat) :
    List (List Bool) × Nat :=
  (List.range h).foldl (clearStep top) (squares, fb)

/-- `Grid::place`. Returns the grid after the call together with the
`Result<(), &'static str>` value; on error the grid is returned as it was
(in the source all fallible statements precede the first mutation). -/
def Grid.place (g : Grid) (s : Shape) (column : Nat) :
    Grid × Except String Unit :=
  match g.resolve s column with
  | Except.error e => (g, Except.error e)
  | Except.ok placement =>
    let sq1 := markCells g.squares placement
    let top := placement.c4.2
    let fb1 := max g.first_blank (top + 1)
    let st := clearRows sq1 fb1 top s.height
    (⟨st.1, st.2⟩, Except.ok ())

/-- `Grid::height`. -/
def Grid.height (g : Grid) : Nat :=
  g.first_blank

/-- The loop of `solve`: apply a parsed list of `(shape, column)` entries
to a grid in order, stopping at the first error (the `?` in `solve`). -/
def placeSeq (g : Grid) : List (Shape × Nat) → Except String Grid
  | [] => Except.ok g
  | (s, c) :: rest =>
    match g.place s c with
    | (g2, Except.ok _) => placeSeq g2 rest
    | (_, Except.error e) => Except.error e

/-- Grids reachable from `Grid::new()` by successful `place` calls. -/
inductive Reachable : Grid → Prop where
  | base : Reachable Grid.new
  | step {g : Grid} (s : Shape) (c : Nat) : Reachable g →
      (g.place s c).2 = Except.ok () → Reachable (g.place s c).1

/-- The rows examined by the resolver loop, mirroring `Grid.scanRows`
step for step: with fuel `n + 1` the loop examines row `n`, and recurses
exactly when the candidate placement at row `n` fits. -/
def Grid.scanExamined (g : Grid) (s : Shape) (column : Nat) : Nat → List Nat
  | 0 => []
  | n + 1 =>
    match s.placement_at column n with
    | Except.error _ => [n]
    | Except.ok p =>
      n :: (if g.can_place p then g.scanExamined s column n else [])

/-- The spec's shape table (section 4.1): each shape's relative cell
offsets, bottom row first, left to right. Written from the spec's words,
to be compared with `Shape.layout`, which is written from the source. -/
def specOffsets : Shape → List (Nat × Nat)
  | .Q => [(0, 0), (1, 0), (0, 1), (1, 1)]
  | .Z => [(1, 0), (2, 0), (0, 1), (1, 1)]
  | .S => [(0, 0), (1, 0), (1, 1), (2, 1)]
  | .T => [(1, 0), (0, 1), (1, 1), (2, 1)]
  | .I => [(0, 0), (1, 0), (2, 0), (3, 0)]
  | .L => [(0, 0), (1, 0), (0, 1), (0, 2)]
  | .J => [(0, 0), (1, 0), (1, 1), (1, 2)]

/-- The property claim C6 asserts of a returned placement: the 4th cell's
row is strictly greater than each of the other three cells' rows. -/
def strictTopRow (p : Placement) : Prop :=
  p.c1.2 < p.c4.2 ∧ p.c2.2 < p.c4.2 ∧ p.c3.2 < p.c4.2

/-- The candidate rows of the clear loop, `top - i` for `i in 0..h`, that
are full in the grid as it stands right after the placement was marked:
the "mark" phase of a mark-then-compact clear. -/
def fullRowsInSpan (squares : List (List Bool)) (top h : Nat) : List Nat :=
  ((List.range h).map (fun i => top - i)).filter (fun y => rowFilled squares y)

/-- Single-pass mark-then-compact clear, written from the spec's words:
first identify all full rows of the placement's span, then remove them
together — keep the rows whose index is not marked, append that many
empty rows at the top, and decrement `first_blank` by the count. -/
def markThenCompact (squares : List (List Bool)) (fb top h : Nat) :
    List (List Bool) × Nat :=
  let F := fullRowsInSpan squares top h
  (((List.range squares.length).filter (fun j => !decide (j ∈ F))).map
      (fun j => squares.getD j []) ++
    List.replicate F.length (List.replicate 10 false),
   fb - F.length)

/-- Row `y` holds no occupied square. (For `y` out of range the row reads
as `[]` and the statement is vacuous.) -/
def rowEmpty (squares : List (List Bool)) (y : Nat) : Prop :=
  ∀ b ∈ squares.getD y [], b = false

/-- The grid invariant: 100 rows of width 10, `first_blank ≤ 100`, every
row at index `≥ first_blank` entirely empty, and no row full at all. -/
structure GridInv (g : Grid) : Prop where
  len : g.squares.length = 100
  rowLen : ∀ j < 100, (g.squares.getD j []).length = 10
  fb_le : g.first_blank ≤ 100
  blank : ∀ j, g.first_blank ≤ j → rowEmpty g.squares j
  nofull : ∀ j < 100, rowFilled g.squares j = false

/-! ### Access lemmas for `removeRow`, `setSquare`, `markCells` -/

theorem length_removeRow {sq : List (List Bool)} {y : Nat}
    (hy : y < sq.length) : (removeRow sq y).length = sq.length := by
  simp [removeRow, List.length_eraseIdx, hy]
  omega

theorem getD_removeRow_of_lt {sq : List (List Bool)} {y j : Nat}
    (hy : y < sq.length) (hj : j < y) :
    (removeRow sq y).getD j [] = sq.getD j [] := by
  have hlen : j < (sq.eraseIdx y).length := by
    rw [List.length_eraseIdx]
    simp only [hy, if_pos]
    omega
  rw [removeRow, List.getD_eq_getElem?_getD, List.getD_eq_getElem?_getD,
    List.getElem?_append_left hlen, List.getElem?_eraseIdx_of_lt _ _ _ hj]

theorem getD_removeRow_of_ge {sq : List (List Bool)} {y j : Nat}
    (hy : y ≤ j) (hj : j + 1 < sq.length) :
    (removeRow sq y).getD j [] = sq.getD (j + 1) [] := by
  have hlen : j < (sq.eraseIdx y).length := by
    rw [List.length_eraseIdx]
    simp only [show y < sq.length by omega, if_pos]
    omega
  rw [removeRow, List.getD_eq_getElem?_getD, List.getD_eq_getElem?_getD,
    List.getElem?_append_left hlen, List.getElem?_eraseIdx_of_ge _ _ _ hy]

theorem getD_removeRow_last {sq : List (List Bool)} {y : Nat}
    (hy : y < sq.length) :
    (removeRow sq y).getD (sq.length - 1) [] = List.replicate 10 false := by
  have hlen : (sq.eraseIdx y).length = sq.length - 1 := by
    rw [List.length_eraseIdx]
    simp [hy]
  rw [removeRow, List.getD_eq_getElem?_getD, ← hlen,
    List.getElem?_concat_length]
  rfl

theorem length_setSquare (sq : List (List Bool)) (x y : Nat) :
    (setSquare sq x y).length = sq.length := by
  simp [setSquare]

theorem getD_setSquare_ne (sq : List (List Bool)) (x : Nat) {y j : Nat}
    (h : j ≠ y) : (setSquare sq x y).getD j [] = sq.getD j [] := by
  rw [setSquare, List.getD_eq_getElem?_getD,
    List.getElem?_set_ne (Ne.symm h), ← List.getD_eq_getElem?_getD]

theorem getD_setSquare_self (sq : List (List Bool)) (x : Nat) {y : Nat}
    (hy : y < sq.length) :
    (setSquare sq x y).getD y [] = (sq.getD y []).set x true := by
  rw [setSquare, List.getD_eq_getElem?_getD, List.getElem?_set_self hy]
  rfl

theorem rowLen_setSquare (sq : List (List Bool)) (x y j : Nat) :
    ((setSquare sq x y).getD j []).length = (sq.getD j []).length := by
  rw [setSquare, List.getD_eq_getElem?_getD, List.getD_eq_getElem?_getD,
    List.getElem?_set]
  by_cases hyj : y = j
  · subst hyj
    by_cases hy : y < sq.length
    · simp [hy, List.getD_eq_getElem?_getD, List.getElem?_eq_getElem hy]
    · simp [hy, List.getElem?_eq_none (by omega : sq.length ≤ y)]
  · simp [hyj]

theorem markCells_eq (sq : List (List Bool)) (p : Placement) :
    markCells sq p =
      setSquare (setSquare (setSquare (setSquare sq p.c1.1 p.c1.2)
        p.c2.1 p.c2.2) p.c3.1 p.c3.2) p.c4.1 p.c4.2 := by
  simp [markCells, Placement.cells]

theorem length_markCells (sq : List (List Bool)) (p : Placement) :
    (markCells sq p).length = sq.length := by
  rw [markCells_eq]
  simp [length_setSquare]

theorem rowLen_markCells (sq : List (List Bool)) (p : Placement) (j : Nat) :
    ((markCells sq p).getD j []).length = (sq.getD j []).length := by
  rw [markCells_eq, rowLen_setSquare, rowLen_setSquare, rowLen_setSquare,
    rowLen_setSquare]

theorem getD_markCells_ne (sq : List (List Bool)) (p : Placement) {j : Nat}
    (h : ∀ c ∈ p.cells, j ≠ c.2) :
    (markCells sq p).getD j [] = sq.getD j [] := by
  rw [markCells_eq]
  rw [getD_setSquare_ne _ _ (h p.c4 (by simp [Placement.cells])),
    getD_setSquare_ne _ _ (h p.c3 (by simp [Placement.cells])),
    getD_setSquare_ne _ _ (h p.c2 (by simp [Placement.cells])),
    getD_setSquare_ne _ _ (h p.c1 (by simp [Placement.cells]))]

theorem rowEmpty_of_getD_eq {sq sq2 : List (List Bool)} {j j2 : Nat}
    (h : sq.getD j [] = sq2.getD j2 []) (he : rowEmpty sq2 j2) :
    rowEmpty sq j := by
  intro b hb
  exact he b (h ▸ hb)

theorem rowEmpty_of_length_le {sq : List (List Bool)} {j : Nat}
    (h : sq.length ≤ j) : rowEmpty sq j := by
  intro b hb
  rw [List.getD_eq_default _ _ h] at hb
  simp at hb

theorem rowFilled_eq_false_of_rowEmpty {sq : List (List Bool)} {y : Nat}
    (hlen : (sq.getD y []).length = 10) (he : rowEmpty sq y) :
    rowFilled sq y = false := by
  rw [rowFilled]
  by_contra h
  rw [Bool.not_eq_false, List.all_eq_true] at h
  match hrow : sq.getD y [], hlen' : (sq.getD y []).length with
  | [], hl => rw [hrow] at hlen; simp at hlen
  | b :: rest, _ =>
    have h1 : b = false := he b (by rw [hrow]; simp)
    have h2 : id b = true := h b (by rw [hrow]; simp)
    simp [h1] at h2

/-! ### Shape lemmas -/

theorem Shape.width_bounds (s : Shape) : 1 ≤ s.width ∧ s.width ≤ 10 := by
  cases s <;> simp [Shape.width]

theorem Shape.height_bounds (s : Shape) : 1 ≤ s.height ∧ s.height ≤ 100 := by
  cases s <;> simp [Shape.height]

/-- Every cell of a shape's layout lies in the shape's bounding box at the
anchor. -/
theorem layout_cells_bounds (s : Shape) (x y : Nat) :
    ∀ c ∈ (s.layout x y).cells,
      x ≤ c.1 ∧ c.1 < x + s.width ∧ y ≤ c.2 ∧ c.2 < y + s.height := by
  intro c hc
  cases s <;>
    simp only [Shape.layout, Placement.cells, List.mem_cons,
      List.not_mem_nil, or_false] at hc <;>
    rcases hc with h | h | h | h <;> subst h <;>
    simp [Shape.width, Shape.height]

/-- The 4th cell of a shape's layout sits on the shape's top row,
`y + height - 1`. -/
theorem layout_c4_row (s : Shape) (x y : Nat) :
    (s.layout x y).c4.2 = y + s.height - 1 := by
  cases s <;> simp [Shape.layout, Shape.height]

/-- The 4th cell's row is the maximum row among the four cells. -/
theorem layout_c4_max (s : Shape) (x y : Nat) :
    ∀ c ∈ (s.layout x y).cells, c.2 ≤ (s.layout x y).c4.2 := by
  intro c hc
  have hb := layout_cells_bounds s x y c hc
  have h4 := layout_c4_row s x y
  have hh := (Shape.height_bounds s).1
  omega

/-- `placement_at` on an in-bounds anchor returns the layout. -/
theorem placement_at_ok {s : Shape} {x y : Nat}
    (hx : x ≤ GRID_WIDTH - s.width) (hy : y ≤ GRID_HEIGHT - s.height) :
    s.placement_at x y = Except.ok (s.layout x y) := by
  rw [Shape.placement_at, if_neg]
  omega

/-- `placement_at` on an out-of-bounds anchor fails. -/
theorem placement_at_error {s : Shape} {x y : Nat}
    (h : x > GRID_WIDTH - s.width ∨ y > GRID_HEIGHT - s.height) :
    s.placement_at x y = Except.error "out of bound" := by
  rw [Shape.placement_at, if_pos h]

/-- In-bounds anchors keep the whole bounding box inside the grid. -/
theorem anchor_in_bounds {s : Shape} {x y : Nat}
    (hx : x ≤ GRID_WIDTH - s.width) (hy : y ≤ GRID_HEIGHT - s.height) :
    x + s.width ≤ 10 ∧ y + s.height ≤ 100 := by
  have hw := s.width_bounds
  have hh := s.height_bounds
  rw [GRID_WIDTH] at hx
  rw [GRID_HEIGHT] at hy
  omega

/-! ### The empty grid satisfies the invariant -/

theorem gridInv_new : GridInv Grid.new := by
  have hget : ∀ j < 100,
      (Grid.new.squares.getD j []) = List.replicate 10 false := by
    intro j hj
    rw [Grid.new, List.getD_eq_getElem?_getD, List.getElem?_replicate]
    simp [hj]
  refine ⟨by simp [Grid.new], ?_, by simp [Grid.new], ?_, ?_⟩
  · intro j hj
    rw [hget j hj]
    simp
  · intro j _
    by_cases hj : j < 100
    · intro b hb
      rw [hget j hj] at hb
      exact (List.mem_replicate.mp hb).2
    · exact rowEmpty_of_length_le (by simp [Grid.new]; omega)
  · intro j hj
    rw [rowFilled, hget j hj]
    decide

/-! ### Resolver scan characterization -/

/-- The scan loop, started at row `n` with the baseline layout at `n`,
returns the layout at some row `r ≤ n` such that every row in `[r, n)`
fits and either `r = 0` or row `r - 1` is blocked. -/
theorem scanRows_spec (g : Grid) (s : Shape) (c : Nat)
    (hc : c ≤ GRID_WIDTH - s.width) :
    ∀ n, n ≤ GRID_HEIGHT - s.height →
      ∃ r, r ≤ n ∧
        g.scanRows s c n (s.layout c n) = Except.ok (s.layout c r) ∧
        (∀ t, r ≤ t → t < n → g.can_place (s.layout c t) = true) ∧
        (r = 0 ∨ g.can_place (s.layout c (r - 1)) = false) := by
  intro n
  induction n with
  | zero =>
    intro _
    exact ⟨0, Nat.le_refl 0, rfl, by omega, Or.inl rfl⟩
  | succ n ih =>
    intro hn
    have hpa : s.placement_at c n = Except.ok (s.layout c n) :=
      placement_at_ok hc (by omega)
    by_cases hcp : g.can_place (s.layout c n) = true
    · obtain ⟨r, hr, heq, hall, hmin⟩ := ih (by omega)
      refine ⟨r, by omega, ?_, ?_, hmin⟩
      · simp only [Grid.scanRows, hpa, hcp, if_true]
        exact heq
      · intro t ht1 ht2
        rcases Nat.lt_or_ge t n with h | h
        · exact hall t ht1 h
        · have ht : t = n := by omega
          subst ht
          exact hcp
    · have hcp' : g.can_place (s.layout c n) = false := by
        simpa using hcp
      refine ⟨n + 1, Nat.le_refl _, ?_, by omega, Or.inr ?_⟩
      · simp only [Grid.scanRows, hpa, hcp', if_false, Bool.false_eq_true]
      · simpa using hcp'

/-- `Grid.resolve` on an in-bounds call: the chosen placement is the
layout at a row `r ≤ first_blank` such that every row in
`[r, first_blank)` fits and either `r = 0` or row `r - 1` is blocked. -/
theorem resolve_spec {g : Grid} {s : Shape} {c : Nat}
    (hc : c ≤ GRID_WIDTH - s.width)
    (hfb : g.first_blank ≤ GRID_HEIGHT - s.height) :
    ∃ r, r ≤ g.first_blank ∧
      g.resolve s c = Except.ok (s.layout c r) ∧
      (∀ t, r ≤ t → t < g.first_blank →
        g.can_place (s.layout c t) = true) ∧
      (r = 0 ∨ g.can_place (s.layout c (r - 1)) = false) := by
  obtain ⟨r, h1, h2, h3, h4⟩ := scanRows_spec g s c hc g.first_blank hfb
  refine ⟨r, h1, ?_, h3, h4⟩
  rw [Grid.resolve, placement_at_ok hc hfb]
  exact h2

/-- `Grid.resolve` fails exactly when the baseline bounds check fails. -/
theorem resolve_error {g : Grid} {s : Shape} {c : Nat}
    (h : c > GRID_WIDTH - s.width ∨
      g.first_blank > GRID_HEIGHT - s.height) :
    g.resolve s c = Except.error "out of bound" := by
  rw [Grid.resolve, placement_at_error h]

/-- Every row the scan loop examines is at or above the topmost blocked
row: once row `b` is blocked, no row below `b` is examined. -/
theorem scanExamined_ge (g : Grid) (s : Shape) (c : Nat)
    (hc : c ≤ GRID_WIDTH - s.width) :
    ∀ n, n ≤ GRID_HEIGHT - s.height → ∀ b, b < n →
      g.can_place (s.layout c b) = false →
      (∀ t, b < t → t < n → g.can_place (s.layout c t) = true) →
      ∀ e ∈ g.scanExamined s c n, b ≤ e := by
  intro n
  induction n with
  | zero =>
    intro _ b hb
    omega
  | succ n ih =>
    intro hn b hb hblocked habove e he
    have hpa : s.placement_at c n = Except.ok (s.layout c n) :=
      placement_at_ok hc (by omega)
    simp only [Grid.scanExamined, hpa, List.mem_cons] at he
    rcases he with he | he
    · omega
    · by_cases hbn : b = n
      · subst hbn
        rw [hblocked] at he
        simp at he
      · have hb' : b < n := by omega
        have hcp : g.can_place (s.layout c n) = true :=
          habove n hb' (by omega)
        rw [hcp] at he
        simp only [if_true] at he
        exact ih (by omega) b hb' hblocked
          (fun t ht1 ht2 => habove t ht1 (by omega)) e he

/-! ### The clear loop preserves the invariant -/

/-- Loop invariant of the row-clear loop. After `n` of the `h` iterations:
the matrix still has 100 rows of width 10, rows at or above the current
`first_blank` are empty, every still-full row lies in the part of the span
not yet inspected (`r ≤ j` and `j + n ≤ top`), and `first_blank` has been
decremented at most `n` times, staying at least `top + 1 - n`. -/
theorem clearRows_aux (sq : List (List Bool)) (fb r top h : Nat)
    (hlen : sq.length = 100)
    (hwidth : ∀ j < 100, (sq.getD j []).length = 10)
    (htop : top + 1 = r + h)
    (htop100 : top < 100)
    (hfb1 : top + 1 ≤ fb)
    (hblank : ∀ j, fb ≤ j → rowEmpty sq j)
    (hfull : ∀ j < 100, rowFilled sq j = true → r ≤ j ∧ j ≤ top) :
    ∀ n, n ≤ h →
      ∀ st : List (List Bool) × Nat,
        st = (List.range n).foldl (clearStep top) (sq, fb) →
        st.1.length = 100 ∧
        (∀ j < 100, (st.1.getD j []).length = 10) ∧
        (∀ j, st.2 ≤ j → rowEmpty st.1 j) ∧
        (∀ j < 100, rowFilled st.1 j = true → r ≤ j ∧ j + n ≤ top) ∧
        top + 1 ≤ st.2 + n ∧ st.2 ≤ fb := by
  intro n
  induction n with
  | zero =>
    intro _ st hst
    simp only [List.range_zero, List.foldl_nil] at hst
    subst hst
    refine ⟨hlen, hwidth, fun j hj => hblank j hj, ?_, by omega, Nat.le_refl _⟩
    intro j hj hfill
    have := hfull j hj hfill
    omega
  | succ n ih =>
    intro hn st hst
    obtain ⟨ih1, ih2, ih3, ih4, ih5, ih6⟩ :=
      ih (by omega) ((List.range n).foldl (clearStep top) (sq, fb)) rfl
    set st0 := (List.range n).foldl (clearStep top) (sq, fb) with hst0
    have hnt : n ≤ top := by omega
    rw [List.range_succ, List.foldl_append, List.foldl_cons,
      List.foldl_nil] at hst
    rw [← hst0] at hst
    by_cases hfill : rowFilled st0.1 (top - n) = true
    · have hy100 : top - n < 100 := by omega
      have hy100' : top - n < st0.1.length := by omega
      have hst2 : top - n + 1 ≤ st0.2 := by omega
      have hstep : st = (removeRow st0.1 (top - n), st0.2 - 1) := by
        rw [hst, clearStep]
        simp only [hfill, if_true]
      rw [hstep]
      refine ⟨?_, ?_, ?_, ?_, by omega, by omega⟩
      · rw [length_removeRow hy100', ih1]
      · intro j hj
        rcases Nat.lt_or_ge j (top - n) with hcase | hcase
        · rw [getD_removeRow_of_lt hy100' hcase]
          exact ih2 j hj
        · rcases Nat.lt_or_ge j 99 with hcase2 | hcase2
          · rw [getD_removeRow_of_ge hcase (by omega)]
            exact ih2 (j + 1) (by omega)
          · have hj99 : j = 99 := by omega
            subst hj99
            have : st0.1.length - 1 = 99 := by omega
            rw [← this, getD_removeRow_last hy100']
            simp
      · intro j hj
        rcases Nat.lt_or_ge j 99 with hcase | hcase
        · have hjy : top - n ≤ j := by omega
          refine rowEmpty_of_getD_eq (getD_removeRow_of_ge hjy (by omega))
            (ih3 (j + 1) (by omega))
        · rcases Nat.lt_or_ge j 100 with hcase2 | hcase2
          · have hj99 : j = 99 := by omega
            subst hj99
            have h99 : st0.1.length - 1 = 99 := by omega
            intro b hb
            rw [← h99, getD_removeRow_last hy100'] at hb
            exact (List.mem_replicate.mp hb).2
          · exact rowEmpty_of_length_le
              (by rw [length_removeRow hy100', ih1]; omega)
      · intro j hj hfill'
        rcases Nat.lt_or_ge j (top - n) with hcase | hcase
        · rw [rowFilled, getD_removeRow_of_lt hy100' hcase] at hfill'
          have := ih4 j hj hfill'
          omega
        · rcases Nat.lt_or_ge j 99 with hcase2 | hcase2
          · rw [rowFilled, getD_removeRow_of_ge hcase (by omega)] at hfill'
            have := ih4 (j + 1) (by omega) hfill'
            omega
          · have hj99 : j = 99 := by omega
            subst hj99
            have h99 : st0.1.length - 1 = 99 := by omega
            rw [rowFilled, ← h99, getD_removeRow_last hy100'] at hfill'
            simp at hfill'
    · have hstep : st = st0 := by
        rw [hst, clearStep]
        simp [hfill]
      rw [hstep]
      refine ⟨ih1, ih2, ih3, ?_, by omega, ih6⟩
      intro j hj hfill'
      have h4 := ih4 j hj hfill'
      have hne : j ≠ top - n := by
        intro hjeq
        rw [hjeq] at hfill'
        exact hfill hfill'
      omega

/-- After the whole clear loop: 100 rows of width 10, all rows at or
above the final `first_blank` empty, no full row left anywhere, and
`first_blank` not increased. -/
theorem clearRows_inv (sq : List (List Bool)) (fb r top h : Nat)
    (hlen : sq.length = 100)
    (hwidth : ∀ j < 100, (sq.getD j []).length = 10)
    (htop : top + 1 = r + h)
    (htop100 : top < 100)
    (hfb1 : top + 1 ≤ fb)
    (hblank : ∀ j, fb ≤ j → rowEmpty sq j)
    (hfull : ∀ j < 100, rowFilled sq j = true → r ≤ j ∧ j ≤ top) :
    (clearRows sq fb top h).1.length = 100 ∧
    (∀ j < 100, ((clearRows sq fb top h).1.getD j []).length = 10) ∧
    (∀ j, (clearRows sq fb top h).2 ≤ j →
      rowEmpty (clearRows sq fb top h).1 j) ∧
    (∀ j < 100, rowFilled (clearRows sq fb top h).1 j = false) ∧
    (clearRows sq fb top h).2 ≤ fb := by
  obtain ⟨h1, h2, h3, h4, h5, h6⟩ :=
    clearRows_aux sq fb r top h hlen hwidth htop htop100 hfb1 hblank hfull
      h (Nat.le_refl h) (clearRows sq fb top h) rfl
  refine ⟨h1, h2, h3, ?_, h6⟩
  intro j hj
  by_contra hcon
  rw [Bool.not_eq_false] at hcon
  have := h4 j hj hcon
  omega

/-! ### `place` preserves the invariant -/

/-- A successful `place` call implies the baseline bounds check passed. -/
theorem place_bounds_of_ok {g : Grid} {s : Shape} {c : Nat}
    (hok : (g.place s c).2 = Except.ok ()) :
    c ≤ GRID_WIDTH - s.width ∧
      g.first_blank ≤ GRID_HEIGHT - s.height := by
  by_contra hcon
  rw [not_and_or] at hcon
  have herr : g.resolve s c = Except.error "out of bound" := by
    apply resolve_error
    rcases hcon with h | h
    · exact Or.inl (by omega)
    · exact Or.inr (by omega)
  simp only [Grid.place, herr] at hok
  exact Except.noConfusion hok

/-- On a successful call, `place` computes the marked-and-cleared state
from the placement `resolve` chose. -/
theorem place_eq_of_resolve {g : Grid} {s : Shape} {c : Nat}
    {p : Placement} (hres : g.resolve s c = Except.ok p) :
    g.place s c =
      (⟨(clearRows (markCells g.squares p)
            (max g.first_blank (p.c4.2 + 1)) p.c4.2 s.height).1,
        (clearRows (markCells g.squares p)
            (max g.first_blank (p.c4.2 + 1)) p.c4.2 s.height).2⟩,
        Except.ok ()) := by
  simp only [Grid.place, hres]

theorem place_inv {g : Grid} {s : Shape} {c : Nat} (hg : GridInv g)
    (hok : (g.place s c).2 = Except.ok ()) :
    GridInv (g.place s c).1 := by
  obtain ⟨hc, hfb⟩ := place_bounds_of_ok hok
  obtain ⟨r, hr, hres, hall, hmin⟩ := resolve_spec hc hfb
  have hh1 : 1 ≤ s.height := (Shape.height_bounds s).1
  have hbox : r + s.height ≤ 100 := by
    rw [GRID_HEIGHT] at hfb
    have := (Shape.height_bounds s).2
    omega
  have htop : (s.layout c r).c4.2 + 1 = r + s.height := by
    rw [layout_c4_row]
    omega
  have htop100 : (s.layout c r).c4.2 < 100 := by omega
  have hfb1a : (s.layout c r).c4.2 + 1 ≤
      max g.first_blank ((s.layout c r).c4.2 + 1) := Nat.le_max_right _ _
  have hfb1b : max g.first_blank ((s.layout c r).c4.2 + 1) ≤ 100 := by
    have := hg.fb_le
    omega
  -- facts about the marked matrix
  have hmlen : (markCells g.squares (s.layout c r)).length = 100 := by
    rw [length_markCells, hg.len]
  have hmwidth : ∀ j < 100,
      ((markCells g.squares (s.layout c r)).getD j []).length = 10 := by
    intro j hj
    rw [rowLen_markCells]
    exact hg.rowLen j hj
  have hmblank : ∀ j, max g.first_blank ((s.layout c r).c4.2 + 1) ≤ j →
      rowEmpty (markCells g.squares (s.layout c r)) j := by
    intro j hj
    have hne : ∀ cc ∈ (s.layout c r).cells, j ≠ cc.2 := by
      intro cc hcc
      have hb := layout_cells_bounds s c r cc hcc
      omega
    exact rowEmpty_of_getD_eq (getD_markCells_ne _ _ hne)
      (hg.blank j (by omega))
  have hmfull : ∀ j < 100,
      rowFilled (markCells g.squares (s.layout c r)) j = true →
      r ≤ j ∧ j ≤ (s.layout c r).c4.2 := by
    intro j hj hfill
    by_cases hmem : ∀ cc ∈ (s.layout c r).cells, j ≠ cc.2
    · rw [rowFilled, getD_markCells_ne _ _ hmem] at hfill
      have := hg.nofull j hj
      rw [rowFilled] at this
      rw [this] at hfill
      simp at hfill
    · push_neg at hmem
      obtain ⟨cc, hcc, hjc⟩ := hmem
      have hb := layout_cells_bounds s c r cc hcc
      omega
  obtain ⟨k1, k2, k3, k4, k5⟩ :=
    clearRows_inv (markCells g.squares (s.layout c r))
      (max g.first_blank ((s.layout c r).c4.2 + 1)) r
      (s.layout c r).c4.2 s.height hmlen hmwidth htop htop100 hfb1a
      hmblank hmfull
  rw [place_eq_of_resolve hres]
  refine ⟨k1, k2, ?_, k3, k4⟩
  show (clearRows (markCells g.squares (s.layout c r))
      (max g.first_blank ((s.layout c r).c4.2 + 1)) (s.layout c r).c4.2
      s.height).2 ≤ 100
  omega

/-- Every reachable grid satisfies the invariant. -/
theorem reachable_inv {g : Grid} (hg : Reachable g) : GridInv g := by
  induction hg with
  | base => exact gridInv_new
  | step s c _ hok ih => exact place_inv ih hok

/-! ### The clear loop, rephrased: remove the full rows of the span -/

theorem fullRowsInSpan_mem {sq : List (List Bool)} {top h : Nat}
    (hh : h ≤ top + 1) :
    ∀ f ∈ fullRowsInSpan sq top h,
      top + 1 ≤ f + h ∧ f ≤ top ∧ rowFilled sq f = true := by
  intro f hf
  rw [fullRowsInSpan, List.mem_filter] at hf
  obtain ⟨hmem, hfill⟩ := hf
  rw [List.mem_map] at hmem
  obtain ⟨i, hi, hif⟩ := hmem
  rw [List.mem_range] at hi
  refine ⟨by omega, by omega, hfill⟩

theorem fullRowsInSpan_sorted {sq : List (List Bool)} {top h : Nat}
    (hh : h ≤ top + 1) :
    List.Pairwise (· > ·) (fullRowsInSpan sq top h) := by
  apply List.Pairwise.filter
  rw [List.pairwise_map]
  apply List.Pairwise.imp_of_mem ?_ (List.pairwise_lt_range h)
  intro a b ha hb hab
  rw [List.mem_range] at ha hb
  omega

theorem fullRowsInSpan_succ (sq : List (List Bool)) (top n : Nat) :
    fullRowsInSpan sq top (n + 1) =
      fullRowsInSpan sq top n ++
        (if rowFilled sq (top - n) then [top - n] else []) := by
  rw [fullRowsInSpan, fullRowsInSpan, List.range_succ, List.map_append,
    List.filter_append]
  congr 1
  simp [List.filter_cons]

/-- Removals at indices above `j` touch neither row `j` nor the length. -/
theorem foldl_removeRow_getD (j : Nat) :
    ∀ (F : List Nat) (sq : List (List Bool)),
      (∀ f ∈ F, j < f ∧ f < sq.length) →
      (F.foldl removeRow sq).getD j [] = sq.getD j [] ∧
        (F.foldl removeRow sq).length = sq.length := by
  intro F
  induction F with
  | nil =>
    intro sq _
    exact ⟨rfl, rfl⟩
  | cons f rest ih =>
    intro sq hF
    have hf := hF f (List.mem_cons_self f rest)
    have hlen : (removeRow sq f).length = sq.length := length_removeRow hf.2
    rw [List.foldl_cons]
    obtain ⟨h1, h2⟩ := ih (removeRow sq f) (fun f' hf' =>
      ⟨(hF f' (List.mem_cons_of_mem f hf')).1,
        by rw [hlen]; exact (hF f' (List.mem_cons_of_mem f hf')).2⟩)
    exact ⟨h1.trans (getD_removeRow_of_lt hf.2 hf.1), h2.trans hlen⟩

/-- The clear loop of the source equals: collect the full rows of the
span as computed on the matrix at loop entry, then remove them one at a
time in that (descending) order, decrementing `first_blank` once each. -/
theorem clearRows_eq_foldl (sq : List (List Bool)) (fb top : Nat)
    (hlen : sq.length = 100) (htop : top < 100) :
    ∀ n, n ≤ top + 1 →
      (List.range n).foldl (clearStep top) (sq, fb) =
        ((fullRowsInSpan sq top n).foldl removeRow sq,
          fb - (fullRowsInSpan sq top n).length) := by
  intro n
  induction n with
  | zero =>
    intro _
    simp [fullRowsInSpan]
  | succ n ih =>
    intro hn
    rw [List.range_succ, List.foldl_append, ih (by omega), List.foldl_cons,
      List.foldl_nil]
    have hcur : ((fullRowsInSpan sq top n).foldl removeRow sq).getD
        (top - n) [] = sq.getD (top - n) [] :=
      (foldl_removeRow_getD (top - n) (fullRowsInSpan sq top n) sq
        (fun f hf => by
          have := fullRowsInSpan_mem (by omega : n ≤ top + 1) f hf
          constructor <;> omega)).1
    rw [clearStep]
    simp only []
    rw [show rowFilled ((fullRowsInSpan sq top n).foldl removeRow sq)
        (top - n) = rowFilled sq (top - n) by rw [rowFilled, rowFilled, hcur]]
    by_cases hfill : rowFilled sq (top - n) = true
    · rw [if_pos hfill, fullRowsInSpan_succ, if_pos hfill,
        List.foldl_append, List.foldl_cons, List.foldl_nil,
        List.length_append]
      simp [Nat.sub_sub]
    · rw [if_neg (by simp [hfill]), fullRowsInSpan_succ,
        if_neg (by simp [hfill]), List.append_nil]

theorem getD_eraseIdx_of_lt (sq : List (List Bool)) {f j : Nat}
    (h : j < f) : (sq.eraseIdx f).getD j [] = sq.getD j [] := by
  rw [List.getD_eq_getElem?_getD, List.getElem?_eraseIdx_of_lt _ _ _ h,
    ← List.getD_eq_getElem?_getD]

theorem getD_eraseIdx_of_ge (sq : List (List Bool)) {f j : Nat}
    (h : f ≤ j) : (sq.eraseIdx f).getD j [] = sq.getD (j + 1) [] := by
  rw [List.getD_eq_getElem?_getD, List.getElem?_eraseIdx_of_ge _ _ _ h,
    ← List.getD_eq_getElem?_getD]

theorem range_map_getD (sq : List (List Bool)) :
    (List.range sq.length).map (fun j => sq.getD j []) = sq := by
  apply List.ext_getElem?
  intro n
  rw [List.getElem?_map]
  rcases Nat.lt_or_ge n sq.length with h | h
  · rw [List.getElem?_range h, List.getElem?_eq_getElem h]
    simp only [Option.map_some']
    rw [List.getD_eq_getElem _ _ h]
  · rw [List.getElem?_eq_none (by simpa using h), List.getElem?_eq_none h]
    rfl

/-- Erasures all strictly inside the left part slide past an appended
row. -/
theorem foldl_eraseIdx_append (e : List Bool) :
    ∀ (F : List Nat) (sq : List (List Bool)),
      List.Pairwise (· > ·) F → (∀ f ∈ F, f < sq.length) →
      F.foldl List.eraseIdx (sq ++ [e]) = F.foldl List.eraseIdx sq ++ [e] := by
  intro F
  induction F with
  | nil =>
    intro sq _ _
    simp
  | cons f rest ih =>
    intro sq hpair hlt
    have hf : f < sq.length := hlt f (List.mem_cons_self f rest)
    have hhead : ∀ b ∈ rest, f > b := (List.pairwise_cons.mp hpair).1
    rw [List.foldl_cons, List.foldl_cons,
      List.eraseIdx_append_of_lt_length hf]
    apply ih (sq.eraseIdx f) hpair.tail
    intro f' hf'
    have h1 := hhead f' hf'
    rw [List.length_eraseIdx_of_lt hf]
    omega

/-- Descending removals with the empty-row re-push equal the bare
descending erasures followed by pushing all the empty rows at the end. -/
theorem foldl_removeRow_eq :
    ∀ (F : List Nat) (sq : List (List Bool)),
      List.Pairwise (· > ·) F → (∀ f ∈ F, f < sq.length) →
      F.foldl removeRow sq =
        F.foldl List.eraseIdx sq ++
          List.replicate F.length (List.replicate 10 false) := by
  intro F
  induction F with
  | nil =>
    intro sq _ _
    simp
  | cons f rest ih =>
    intro sq hpair hlt
    have hf : f < sq.length := hlt f (List.mem_cons_self f rest)
    have hhead : ∀ b ∈ rest, f > b := (List.pairwise_cons.mp hpair).1
    rw [List.foldl_cons, List.foldl_cons]
    rw [show removeRow sq f = sq.eraseIdx f ++ [List.replicate 10 false]
      from rfl]
    rw [ih (sq.eraseIdx f ++ [List.replicate 10 false]) hpair.tail
      (fun f' hf' => by
        have h1 := hhead f' hf'
        rw [List.length_append, List.length_eraseIdx_of_lt hf]
        simp only [List.length_cons, List.length_nil]
        omega)]
    rw [foldl_eraseIdx_append _ rest (sq.eraseIdx f) hpair.tail
      (fun f' hf' => by
        have h1 := hhead f' hf'
        rw [List.length_eraseIdx_of_lt hf]
        omega)]
    rw [List.append_assoc, List.singleton_append, ← List.replicate_succ,
      List.length_cons]

/-- Descending erasures equal removing the erased index set in a single
pass: keep exactly the rows whose index is not in the set. -/
theorem foldl_eraseIdx_eq_filter :
    ∀ (F : List Nat) (sq : List (List Bool)),
      List.Pairwise (· > ·) F → (∀ f ∈ F, f < sq.length) →
      F.foldl List.eraseIdx sq =
        ((List.range sq.length).filter (fun j => !decide (j ∈ F))).map
          (fun j => sq.getD j []) := by
  intro F
  induction F with
  | nil =>
    intro sq _ _
    simp only [List.foldl_nil, List.not_mem_nil, decide_False, Bool.not_false,
      List.filter_true]
    exact (range_map_getD sq).symm
  | cons f rest ih =>
    intro sq hpair hlt
    have hf : f < sq.length := hlt f (List.mem_cons_self f rest)
    have hhead : ∀ b ∈ rest, f > b := (List.pairwise_cons.mp hpair).1
    rw [List.foldl_cons]
    rw [ih (sq.eraseIdx f) hpair.tail
      (fun f' hf' => by
        have h1 := hhead f' hf'
        rw [List.length_eraseIdx_of_lt hf]
        omega)]
    have hle : (sq.eraseIdx f).length = sq.length - 1 :=
      List.length_eraseIdx_of_lt hf
    -- split both index ranges at `f`
    have hsplitL : List.range (sq.length - 1) =
        List.range f ++ (List.range (sq.length - 1 - f)).map (f + ·) := by
      rw [← List.range_add]
      congr 1
      omega
    have hsplitR : List.range sq.length =
        (List.range f ++ [f]) ++
          (List.range (sq.length - 1 - f)).map (f + 1 + ·) := by
      rw [← List.range_succ, ← List.range_add]
      congr 1
      omega
    rw [hle, hsplitL, hsplitR, List.filter_append, List.filter_append,
      List.filter_append, List.map_append, List.map_append]
    -- the singleton [f] is dropped on the right
    have hdrop : List.filter (fun j => !decide (j ∈ f :: rest)) [f] = [] := by
      simp
    rw [hdrop, List.append_nil]
    congr 1
    · -- indices below f: same filter, same rows
      rw [List.filter_congr (fun j hj => by
        rw [List.mem_range] at hj
        have hne : j ≠ f := by omega
        simp only [Bool.not_inj_iff, decide_eq_decide, List.mem_cons]
        constructor
        · exact Or.inr
        · intro hor
          rcases hor with h | h
          · exact absurd h hne
          · exact h : ∀ j ∈ List.range f,
          (!decide (j ∈ rest)) = (!decide (j ∈ f :: rest)))]
      apply List.map_congr_left
      intro j hj
      rw [List.mem_filter, List.mem_range] at hj
      exact getD_eraseIdx_of_lt sq hj.1
    · -- indices at or above f: everything is kept, rows shift by one
      have hkeepL : ∀ j ∈ (List.range (sq.length - 1 - f)).map (f + ·),
          (!decide (j ∈ rest)) = true := by
        intro j hj
        rw [List.mem_map] at hj
        obtain ⟨i, _, hij⟩ := hj
        have hij2 : f + i = j := hij
        simp only [Bool.not_eq_true', decide_eq_false_iff_not]
        intro hmem
        have := hhead j hmem
        omega
      have hkeepR : ∀ j ∈ (List.range (sq.length - 1 - f)).map (f + 1 + ·),
          (!decide (j ∈ f :: rest)) = true := by
        intro j hj
        rw [List.mem_map] at hj
        obtain ⟨i, _, hij⟩ := hj
        have hij2 : f + 1 + i = j := hij
        simp only [Bool.not_eq_true', decide_eq_false_iff_not,
          List.mem_cons]
        push_neg
        refine ⟨by omega, ?_⟩
        intro hmem
        have := hhead j hmem
        omega
      rw [List.filter_eq_self.mpr hkeepL, List.filter_eq_self.mpr hkeepR,
        List.map_map, List.map_map]
      apply List.map_congr_left
      intro i _
      simp only [Function.comp]
      rw [getD_eraseIdx_of_ge sq (by omega)]
      congr 1
      omega

/-- C3 core equivalence: the source's clear loop equals the single-pass
mark-then-compact clear. -/
theorem clearRows_eq_markThenCompact (sq : List (List Bool))
    (fb top h : Nat) (hlen : sq.length = 100) (htop : top < 100)
    (hh : h ≤ top + 1) :
    clearRows sq fb top h = markThenCompact sq fb top h := by
  rw [clearRows, clearRows_eq_foldl sq fb top hlen htop h hh]
  have hsorted := @fullRowsInSpan_sorted sq top h hh
  have hbound : ∀ f ∈ fullRowsInSpan sq top h, f < sq.length := by
    intro f hf
    have := fullRowsInSpan_mem hh f hf
    omega
  simp only [markThenCompact]
  rw [foldl_removeRow_eq _ sq hsorted hbound,
    foldl_eraseIdx_eq_filter _ sq hsorted hbound]

/-! ### Claim theorems -/

/-- C1: for every grid reachable from `Grid::new()` by successful `place`
calls, every row with index `≥ first_blank` is entirely empty, and no row
with index `< first_blank` is fully occupied (full rows are always
cleared before the call returns). -/
theorem claim_C1 {g : Grid} (hg : Reachable g) :
    (∀ y, g.first_blank ≤ y → rowEmpty g.squares y) ∧
      (∀ y, y < g.first_blank → g.is_row_filled y = false) := by
  have hinv := reachable_inv hg
  refine ⟨hinv.blank, ?_⟩
  intro y hy
  have := hinv.fb_le
  exact hinv.nofull y (by omega)

/-- Witness for C1: after one successful placement, row 1 (below the new
`first_blank` of 2) is not fully occupied. -/
theorem claim_C1_witness :
    (Grid.new.place Shape.Q 0).1.is_row_filled 1 = false :=
  (claim_C1 (Reachable.step Shape.Q 0 Reachable.base (by rfl))).2 1
    (by decide)

/-- C3: when two or more rows of one placement's vertical span are
simultaneously full, the implemented clear loop (candidate row `top - i`,
removing rows one at a time while higher rows shift down) produces the
same final occupancy matrix and `first_blank` as a single-pass
mark-then-compact clear. -/
theorem claim_C3 (sq : List (List Bool)) (fb top h : Nat)
    (hlen : sq.length = 100) (htop : top < 100) (hh : h ≤ top + 1)
    (_hfull2 : 2 ≤ (fullRowsInSpan sq top h).length) :
    clearRows sq fb top h = markThenCompact sq fb top h :=
  clearRows_eq_markThenCompact sq fb top h hlen htop hh

/-- Witness for C3: a matrix whose bottom two rows are both full, with a
span of height 2 covering them. -/
theorem claim_C3_witness :
    2 ≤ (fullRowsInSpan (List.replicate 2 (List.replicate 10 true) ++
        List.replicate 98 (List.replicate 10 false)) 1 2).length ∧
    clearRows (List.replicate 2 (List.replicate 10 true) ++
        List.replicate 98 (List.replicate 10 false)) 2 1 2 =
      markThenCompact (List.replicate 2 (List.replicate 10 true) ++
        List.replicate 98 (List.replicate 10 false)) 2 1 2 :=
  ⟨by decide,
    claim_C3 (List.replicate 2 (List.replicate 10 true) ++
        List.replicate 98 (List.replicate 10 false)) 2 1 2
      (by decide) (by decide) (by decide) (by decide)⟩

/-- C4: a `place` call is atomic. On error the grid is returned exactly
as it was; an error happens iff the baseline bounds check at
`(column, first_blank)` fails; and once that baseline is in bounds, every
`placement_at` call of the downward scan succeeds. -/
theorem claim_C4 (g : Grid) (s : Shape) (c : Nat) :
    (∀ e, (g.place s c).2 = Except.error e → (g.place s c).1 = g) ∧
    ((∃ e, (g.place s c).2 = Except.error e) ↔
      (c > GRID_WIDTH - s.width ∨
        g.first_blank > GRID_HEIGHT - s.height)) ∧
    (c ≤ GRID_WIDTH - s.width → g.first_blank ≤ GRID_HEIGHT - s.height →
      ∀ r < g.first_blank,
        s.placement_at c r = Except.ok (s.layout c r)) := by
  refine ⟨?_, ⟨?_, ?_⟩, ?_⟩
  · intro e herr
    match hres : g.resolve s c with
    | Except.error e2 => simp only [Grid.place, hres]
    | Except.ok p =>
      rw [place_eq_of_resolve hres] at herr
      exact Except.noConfusion herr
  · intro hex
    by_contra hcon
    push_neg at hcon
    obtain ⟨r, _, hres, _, _⟩ :=
      resolve_spec (g := g) (s := s) (c := c) (by omega) (by omega)
    rw [place_eq_of_resolve hres] at hex
    obtain ⟨e, he⟩ := hex
    exact Except.noConfusion he
  · intro hbad
    have herr : g.resolve s c = Except.error "out of bound" :=
      resolve_error hbad
    refine ⟨"out of bound", ?_⟩
    simp only [Grid.place, herr]
  · intro hc hfb r hr
    exact placement_at_ok hc (by omega)

/-- Witness for C4: column 20 is out of bounds for Q; the call fails and
leaves the empty grid untouched. -/
theorem claim_C4_witness :
    (Grid.new.place Shape.Q 20).2 = Except.error "out of bound" ∧
      (Grid.new.place Shape.Q 20).1 = Grid.new :=
  ⟨by rfl, (claim_C4 Grid.new Shape.Q 20).1 "out of bound" (by rfl)⟩

/-- C5: `placement_at` fails iff `x > W - width` or `y > H - height`
(`W = 10`, `H = 100`); otherwise it returns exactly the spec table's four
relative cells offset by the anchor. -/
theorem claim_C5 (s : Shape) (x y : Nat) :
    ((∃ e, s.placement_at x y = Except.error e) ↔
      (x > GRID_WIDTH - s.width ∨ y > GRID_HEIGHT - s.height)) ∧
    (¬(x > GRID_WIDTH - s.width ∨ y > GRID_HEIGHT - s.height) →
      (s.placement_at x y).map Placement.cells =
        Except.ok ((specOffsets s).map (fun o => (x + o.1, y + o.2)))) := by
  constructor
  · constructor
    · intro hex
      by_contra hcon
      rw [placement_at_ok (by omega) (by omega)] at hex
      obtain ⟨e, he⟩ := hex
      exact Except.noConfusion he
    · intro hbad
      exact ⟨"out of bound", placement_at_error hbad⟩
  · intro hok
    rw [placement_at_ok (by omega) (by omega)]
    cases s <;> simp [Shape.layout, Placement.cells, specOffsets, Except.map]

/-- Witness for C5: Z at anchor (7, 98) is exactly at the in-bounds
limit and returns the table cells. -/
theorem claim_C5_witness :
    ¬((7 : Nat) > GRID_WIDTH - Shape.Z.width ∨
        (98 : Nat) > GRID_HEIGHT - Shape.Z.height) ∧
    (Shape.Z.placement_at 7 98).map Placement.cells =
      Except.ok ((specOffsets Shape.Z).map
        (fun o => (7 + o.1, 98 + o.2))) :=
  ⟨by decide, (claim_C5 Shape.Z 7 98).2 (by decide)⟩

/-- C2: on a successful resolve, the chosen anchor row `r` is the least
row such that every row from `r` up to `first_blank - 1` has all 4 cells
empty; it equals `first_blank` iff `first_blank = 0` or the placement at
`first_blank - 1` overlaps an occupied cell; and the scan examines no row
below the topmost blocked row. -/
theorem claim_C2 {g : Grid} {s : Shape} {c : Nat} {p : Placement}
    (hres : g.resolve s c = Except.ok p) :
    ∃ r, p = s.layout c r ∧
      IsLeast {a : Nat | ∀ t, a ≤ t → t < g.first_blank →
        g.can_place (s.layout c t) = true} r ∧
      (r = g.first_blank ↔ (g.first_blank = 0 ∨
        g.can_place (s.layout c (g.first_blank - 1)) = false)) ∧
      (∀ b, b < g.first_blank → g.can_place (s.layout c b) = false →
        (∀ t, b < t → t < g.first_blank →
          g.can_place (s.layout c t) = true) →
        ∀ e ∈ g.scanExamined s c g.first_blank, b ≤ e) := by
  have hbounds : c ≤ GRID_WIDTH - s.width ∧
      g.first_blank ≤ GRID_HEIGHT - s.height := by
    by_contra hcon
    rw [not_and_or] at hcon
    have herr : g.resolve s c = Except.error "out of bound" := by
      apply resolve_error
      rcases hcon with h | h
      · exact Or.inl (by omega)
      · exact Or.inr (by omega)
    rw [herr] at hres
    exact Except.noConfusion hres
  obtain ⟨hc, hfb⟩ := hbounds
  obtain ⟨r, hr, hres', hall, hmin⟩ := resolve_spec hc hfb
  rw [hres'] at hres
  have hp : p = s.layout c r := (Except.ok.inj hres).symm
  refine ⟨r, hp, ⟨hall, ?_⟩, ⟨?_, ?_⟩, ?_⟩
  · -- lower bound: any row with the property is ≥ r
    intro a ha
    by_contra hcon
    push_neg at hcon
    have hr1 : r ≠ 0 := by omega
    have hblocked : g.can_place (s.layout c (r - 1)) = false := by
      rcases hmin with h | h
      · exact absurd h hr1
      · exact h
    have hfits : g.can_place (s.layout c (r - 1)) = true :=
      ha (r - 1) (by omega) (by omega)
    rw [hfits] at hblocked
    exact Bool.noConfusion hblocked
  · intro hreq
    rcases Nat.eq_zero_or_pos g.first_blank with h0 | h0
    · exact Or.inl h0
    · refine Or.inr ?_
      rcases hmin with h | h
      · omega
      · rw [← hreq]
        exact h
  · intro hor
    rcases hor with h0 | hblocked
    · omega
    · by_contra hcon
      have hlt : r < g.first_blank := by omega
      have := hall (g.first_blank - 1) (by omega) (by omega)
      rw [this] at hblocked
      exact Bool.noConfusion hblocked
  · intro b hb hblocked habove
    exact scanExamined_ge g s c hc g.first_blank hfb b hb hblocked habove

/-- Witness for C2: Q dropped at column 0 of the empty grid resolves to
anchor row 0. -/
theorem claim_C2_witness :
    Grid.new.resolve Shape.Q 0 =
      Except.ok (Placement.mk (0, 0) (1, 0) (0, 1) (1, 1)) ∧
    ∃ r, Placement.mk (0, 0) (1, 0) (0, 1) (1, 1) = Shape.Q.layout 0 r ∧
      IsLeast {a : Nat | ∀ t, a ≤ t → t < Grid.new.first_blank →
        Grid.new.can_place (Shape.Q.layout 0 t) = true} r ∧
      (r = Grid.new.first_blank ↔ (Grid.new.first_blank = 0 ∨
        Grid.new.can_place (Shape.Q.layout 0 (Grid.new.first_blank - 1)) =
          false)) ∧
      (∀ b, b < Grid.new.first_blank →
        Grid.new.can_place (Shape.Q.layout 0 b) = false →
        (∀ t, b < t → t < Grid.new.first_blank →
          Grid.new.can_place (Shape.Q.layout 0 t) = true) →
        ∀ e ∈ Grid.new.scanExamined Shape.Q 0 Grid.new.first_blank,
          b ≤ e) :=
  ⟨by rfl, claim_C2 (by rfl)⟩

/-- C6 counterexample: for Q at anchor (0, 0) the returned 4th cell
`(1, 1)` has the same row as the 3rd cell `(0, 1)`, so its row is not
strictly greater than every other cell's row. -/
theorem claim_C6_counterexample :
    Shape.Q.placement_at 0 0 =
      Except.ok (Placement.mk (0, 0) (1, 0) (0, 1) (1, 1)) ∧
    ¬ strictTopRow (Placement.mk (0, 0) (1, 0) (0, 1) (1, 1)) := by
  refine ⟨by rfl, ?_⟩
  intro h
  exact Nat.lt_irrefl 1 h.2.2

/-- C6 amended: for every shape and in-bounds anchor, the 4th cell's row
is greater than or equal to each of the other three cells' rows (it is a
maximum; strictness fails for Q, Z, S, T, I, where the top row holds
several cells). -/
theorem claim_C6_amended {s : Shape} {x y : Nat} {p : Placement}
    (h : s.placement_at x y = Except.ok p) :
    p.c1.2 ≤ p.c4.2 ∧ p.c2.2 ≤ p.c4.2 ∧ p.c3.2 ≤ p.c4.2 := by
  have hp : p = s.layout x y := by
    rw [Shape.placement_at] at h
    split at h
    · exact Except.noConfusion h
    · exact (Except.ok.inj h).symm
  subst hp
  refine ⟨layout_c4_max s x y _ ?_, layout_c4_max s x y _ ?_,
    layout_c4_max s x y _ ?_⟩ <;> simp [Placement.cells]

/-- Witness for C6 (amended): T at anchor (2, 5). -/
theorem claim_C6_witness :
    Shape.T.placement_at 2 5 =
      Except.ok (Placement.mk (3, 5) (2, 6) (3, 6) (4, 6)) ∧
    ((5 : Nat) ≤ 6 ∧ (6 : Nat) ≤ 6 ∧ (6 : Nat) ≤ 6) :=
  ⟨by rfl, claim_C6_amended (s := Shape.T) (x := 2) (y := 5)
    (p := Placement.mk (3, 5) (2, 6) (3, 6) (4, 6)) (by rfl)⟩

/-- C7: for every shape and in-bounds anchor `(x, y)`, the 4th cell's row
is the maximum row among the four cells and equals `y + height - 1`, the
shape's topmost occupied row at that anchor. -/
theorem claim_C7 {s : Shape} {x y : Nat} {p : Placement}
    (h : s.placement_at x y = Except.ok p) :
    (∀ cc ∈ p.cells, cc.2 ≤ p.c4.2) ∧ p.c4.2 = y + s.height - 1 := by
  have hp : p = s.layout x y := by
    rw [Shape.placement_at] at h
    split at h
    · exact Except.noConfusion h
    · exact (Except.ok.inj h).symm
  subst hp
  exact ⟨layout_c4_max s x y, layout_c4_row s x y⟩

/-- Witness for C7: J at anchor (0, 0); its 4th cell has row
`0 + 3 - 1 = 2`. -/
theorem claim_C7_witness :
    Shape.J.placement_at 0 0 =
      Except.ok (Placement.mk (0, 0) (1, 0) (1, 1) (1, 2)) ∧
    (Placement.mk (0, 0) (1, 0) (1, 1) (1, 2)).c4.2 =
      0 + Shape.J.height - 1 :=
  ⟨by rfl, (claim_C7 (s := Shape.J) (x := 0) (y := 0)
    (p := Placement.mk (0, 0) (1, 0) (1, 1) (1, 2)) (by rfl)).2⟩

/-- C8: for the placement a successful resolve chooses, `top` is at
least `height - 1`, so every clear-loop index `top - i` with
`i < height` is non-negative (the source's `usize` subtraction cannot
underflow). -/
theorem claim_C8 {g : Grid} {s : Shape} {c : Nat} {p : Placement}
    (hres : g.resolve s c = Except.ok p) :
    s.height - 1 ≤ p.c4.2 ∧ ∀ i < s.height, 0 ≤ (p.c4.2 : Int) - i := by
  have hbounds : c ≤ GRID_WIDTH - s.width ∧
      g.first_blank ≤ GRID_HEIGHT - s.height := by
    by_contra hcon
    rw [not_and_or] at hcon
    have herr : g.resolve s c = Except.error "out of bound" := by
      apply resolve_error
      rcases hcon with h | h
      · exact Or.inl (by omega)
      · exact Or.inr (by omega)
    rw [herr] at hres
    exact Except.noConfusion hres
  obtain ⟨r, hr, hres', hall, hmin⟩ := resolve_spec hbounds.1 hbounds.2
  rw [hres'] at hres
  have hp : p = s.layout c r := (Except.ok.inj hres).symm
  subst hp
  rw [layout_c4_row]
  have hh := (Shape.height_bounds s).1
  constructor
  · omega
  · intro i hi
    have : i ≤ r + s.height - 1 := by omega
    omega

/-- Witness for C8: Q on the empty grid; `top = 1` and both loop indices
stay non-negative. -/
theorem claim_C8_witness :
    Grid.new.resolve Shape.Q 0 =
      Except.ok (Placement.mk (0, 0) (1, 0) (0, 1) (1, 1)) ∧
    Shape.Q.height - 1 ≤ (Placement.mk (0, 0) (1, 0) (0, 1) (1, 1)).c4.2 :=
  ⟨by rfl, (claim_C8 (g := Grid.new) (s := Shape.Q) (c := 0)
    (p := Placement.mk (0, 0) (1, 0) (0, 1) (1, 1)) (by rfl)).1⟩

/-- C9: the regression sequence `I0,I6,T4,J8,T6,I0,T3` succeeds at every
step and ends at height 2; moreover after the first six placements the
stack height is 3, yet the final T at column 3 resolves to anchor row 0 —
it falls into the hole opened by the mid-stack clear instead of resting
on top of the stack. -/
theorem claim_C9 :
    (placeSeq Grid.new
      [(Shape.I, 0), (Shape.I, 6), (Shape.T, 4), (Shape.J, 8),
        (Shape.T, 6), (Shape.I, 0), (Shape.T, 3)]).map Grid.height =
      Except.ok 2 ∧
    (placeSeq Grid.new
      [(Shape.I, 0), (Shape.I, 6), (Shape.T, 4), (Shape.J, 8),
        (Shape.T, 6), (Shape.I, 0)]).map
        (fun g => (g.height, g.resolve Shape.T 3)) =
      Except.ok (3, Except.ok (Shape.T.layout 3 0)) := by
  constructor
  · rfl
  · rfl

/-- C10: for every reachable grid, `height()` returns `first_blank`,
which lies in `[0, 100]` (`Nat`, so never negative), and `height` is a
pure projection with no effect on the grid. -/
theorem claim_C10 {g : Grid} (hg : Reachable g) :
    g.height = g.first_blank ∧ g.height ≤ 100 :=
  ⟨rfl, (reachable_inv hg).fb_le⟩

/-- Witness for C10: the empty grid. -/
theorem claim_C10_witness :
    Grid.new.height = Grid.new.first_blank ∧ Grid.new.height ≤ 100 :=
  claim_C10 Reachable.base

end Tetris
